import Mathlib

unseal Rat.add Rat.mul Rat.sub Rat.inv

/-!
Verification development for the Hull2d repository (bounded-memory 2D convex
hull via Graham scan, plus a convex-polygon intersection test).

Shallow embedding conventions:
* `Point2f` coordinates are modelled as exact rationals; the C code stores
  `float` coordinates and evaluates cross products in `double`, comparing the
  results against `FLT_EPSILON = 2^-23`.  All concrete inputs used below are
  small dyadic rationals whose float/double evaluation is exact, so the
  rational model agrees with the C arithmetic on them.
* The fixed-capacity C arrays `points[]` / `boundaryIdx[]` are modelled by the
  live prefixes (`pointCount` / `boundaryCount` entries) as Lean lists; the
  counts are the list lengths.  Reads use `List.getD`; the default value
  `{ pointIdx := 0, remove := false }` for the boundary array coincides with
  the sentinel entry that `hull2d_init` writes at slot 0 of `boundaryIdx`.
* `LOGASSERT` failures and the resulting aborts are modelled by `Option`:
  a function returns `none` where the C program would trip an assertion.
* The scratch `stack_t` used by `hull2d_grahams` starts cleared and its
  capacity (`MAX_POINTS_PER_HULL`) always exceeds the number of pushes, so it
  is modelled inside `hull2d_grahams` by a Lean list whose head is the top.
  The generic `stack_t` itself (with its raw `top` index, capacity and backing
  memory) is modelled separately for the stack claims.
-/

/-- Machine epsilon of the `float` coordinate type: `FLT_EPSILON = 2^-23`. -/
def FLT_EPSILON : ℚ := 1 / 2 ^ 23

/-- `Point2f` from `defines.h`: a pair of coordinates. -/
structure Point2f where
  x : ℚ
  y : ℚ
deriving DecidableEq, Repr

/-- `flaggedindex_t` from `hull2d.h`. -/
structure flaggedindex_t where
  pointIdx : Nat
  remove : Bool
deriving DecidableEq, Repr

/-- `hull2d_t` from `hull2d.h`; the lists are the live prefixes of the
fixed-capacity arrays, `pointCount`/`boundaryCount` are their lengths. -/
structure hull2d_t where
  points : List Point2f
  boundaryIdx : List flaggedindex_t
  lowestIdx : Nat
  dirty : Bool
deriving DecidableEq, Repr

def hull2d_t.pointCount (h : hull2d_t) : Nat := h.points.length

def hull2d_t.boundaryCount (h : hull2d_t) : Nat := h.boundaryIdx.length

/-- Read `points[i]`. -/
def readPoint (ps : List Point2f) (i : Nat) : Point2f := ps.getD i ⟨0, 0⟩

/-- Read `boundaryIdx[i]`; the default is the sentinel `{0, FALSE}` that
`hull2d_init` stores in slot 0. -/
def readBoundary (bs : List flaggedindex_t) (i : Nat) : flaggedindex_t :=
  bs.getD i ⟨0, false⟩

/-- `hull2d_init`: empty hull, `dirty = TRUE`, counts zero, `lowestIdx = 0`
(the sentinel write `boundaryIdx[0] = {0, FALSE}` is the `readBoundary`
default). -/
def hull2d_init : hull2d_t := ⟨[], [], 0, true⟩

/-- `hull2d_clear` just re-runs `hull2d_init`. -/
def hull2d_clear (_h : hull2d_t) : hull2d_t := hull2d_init

/-- The lowest-point test of `hull2d_addPoint`/`hull2d_addPoints`:
`(p->y < p0->y) || (fabs(p->y - p0->y) <= FLT_EPSILON && p->x > p0->x)`. -/
def lowerThan (p p0 : Point2f) : Bool :=
  decide (p.y < p0.y ∨ (|p.y - p0.y| ≤ FLT_EPSILON ∧ p.x > p0.x))

/-- `hull2d_addPoint`: append the point, append a fresh boundary reference,
set `dirty`, and update `lowestIdx` if the point improves on the current
lowest point (the comparison point is read from the arrays after the two
writes, exactly as in the source). -/
def hull2d_addPoint (h : hull2d_t) (point : Point2f) : hull2d_t :=
  let points' := h.points ++ [point]
  let boundary' := h.boundaryIdx ++ [⟨h.pointCount, false⟩]
  let p0 := readPoint points' (readBoundary boundary' h.lowestIdx).pointIdx
  let lowest' := if lowerThan point p0 then h.boundaryCount else h.lowestIdx
  { points := points', boundaryIdx := boundary', lowestIdx := lowest',
    dirty := true }

/-- The loop of `hull2d_addPoints`: for each batch element, append a boundary
reference and track the running lowest point through the cached comparison
point `p0` (re-pointed at the new point whenever it improves). `pointBase`
is `pointCount + i`; the points array was already fully extended. -/
def addPointsLoop (points' : List Point2f) (boundary : List flaggedindex_t)
    (lowestIdx : Nat) (p0 : Point2f) (pointBase : Nat) :
    List Point2f → List flaggedindex_t × Nat
  | [] => (boundary, lowestIdx)
  | _ :: rest =>
    let boundary' := boundary ++ [⟨pointBase, false⟩]
    let p := readPoint points' pointBase
    if lowerThan p p0 then
      addPointsLoop points' boundary' boundary.length p (pointBase + 1) rest
    else
      addPointsLoop points' boundary' lowestIdx p0 (pointBase + 1) rest

/-- `hull2d_addPoints`: bulk-copy the batch into the points array, set
`dirty`, read the pivot comparison point once, then run the per-element
loop. -/
def hull2d_addPoints (h : hull2d_t) (ps : List Point2f) : hull2d_t :=
  let points' := h.points ++ ps
  let p0 := readPoint points' (readBoundary h.boundaryIdx h.lowestIdx).pointIdx
  let res := addPointsLoop points' h.boundaryIdx h.lowestIdx p0 h.pointCount ps
  { points := points', boundaryIdx := res.1, lowestIdx := res.2, dirty := true }

/-- `hull2d_areaSign`: sign of the doubled signed area of triangle `abc`,
with a `FLT_EPSILON` dead zone around zero. -/
def hull2d_areaSign (a b c : Point2f) : Int :=
  let area2 : ℚ := (b.x - a.x) * (c.y - a.y) - (c.x - a.x) * (b.y - a.y)
  if area2 > FLT_EPSILON then 1
  else if area2 < -FLT_EPSILON then -1
  else 0

/-- `hull2d_left`: `c` strictly left of the vector `ab`. -/
def hull2d_left (a b c : Point2f) : Bool := decide (hull2d_areaSign a b c > 0)

/-- `hull2d_leftOn`: `c` left of or on the line `ab`. -/
def hull2d_leftOn (a b c : Point2f) : Bool := decide (hull2d_areaSign a b c ≥ 0)

/-- `hull2d_collinear`. -/
def hull2d_collinear (a b c : Point2f) : Bool :=
  decide (hull2d_areaSign a b c = 0)

/-- `hull2d_compareAndFlag`: the polar-sort comparator. Returns the ordering
result together with the (possibly flag-updated) two entries, mirroring the
in-place mutation of `bidx->remove` / `cidx->remove` in the source. -/
def hull2d_compareAndFlag (points : List Point2f) (a : Point2f)
    (bidx cidx : flaggedindex_t) : Bool × flaggedindex_t × flaggedindex_t :=
  if bidx.pointIdx = cidx.pointIdx then (false, bidx, cidx)
  else
    let b := readPoint points bidx.pointIdx
    let c := readPoint points cidx.pointIdx
    let areaSign := hull2d_areaSign a b c
    if areaSign > 0 then (true, bidx, cidx)
    else if areaSign < 0 then (false, bidx, cidx)
    else
      let dx : ℚ := |b.x - a.x| - |c.x - a.x|
      let dy : ℚ := |b.y - a.y| - |c.y - a.y|
      if dx < -FLT_EPSILON ∨ dy < -FLT_EPSILON then
        (false, { bidx with remove := true }, cidx)
      else if dx > FLT_EPSILON ∨ dy > FLT_EPSILON then
        (true, bidx, { cidx with remove := true })
      else
        if bidx.pointIdx > cidx.pointIdx then
          (false, { bidx with remove := true }, cidx)
        else
          (false, bidx, { cidx with remove := true })

/-- Modelled from the spec: the repository includes `qsort.h` (the `QSORT`
macro used by `hull2d_sort`) but that header is not among the sources.
Section 4.4 of the spec says the entries after the pivot are sorted with the
comparator above, that the comparator's flagging side effect must be
preserved, and that stability is not required.  A standard insertion sort
that threads the comparator's flag updates through the list stands in for
the missing macro: one insertion step of `x` into an already sorted list. -/
def insertF (points : List Point2f) (a : Point2f) (x : flaggedindex_t) :
    List flaggedindex_t → List flaggedindex_t
  | [] => [x]
  | y :: ys =>
    match hull2d_compareAndFlag points a x y with
    | (true, x', y') => x' :: y' :: ys
    | (false, x', y') => y' :: insertF points a x' ys

/-- Modelled from the spec: insertion sort built on `insertF`, standing in
for the absent `QSORT` macro of `qsort.h` (see `insertF`). -/
def sortF (points : List Point2f) (a : Point2f) :
    List flaggedindex_t → List flaggedindex_t
  | [] => []
  | x :: xs => insertF points a x (sortF points a xs)

/-- Sort the tail of the boundary list (entries 1 and up) around the pivot
sitting at slot 0, as `hull2d_sort` does after the swap. -/
def sortPass (points : List Point2f) : List flaggedindex_t → List flaggedindex_t
  | [] => []
  | b0 :: rest => b0 :: sortF points (readPoint points b0.pointIdx) rest

/-- `hull2d_sort`: swap the lowest boundary reference to slot 0, reset
`lowestIdx`, then sort the remaining entries by angle around the pivot. -/
def hull2d_sort (h : hull2d_t) : hull2d_t :=
  let b := h.boundaryIdx
  let temp := readBoundary b 0
  let b' := (b.set 0 (readBoundary b h.lowestIdx)).set h.lowestIdx temp
  { h with boundaryIdx := sortPass h.points b', lowestIdx := 0 }

/-- `hull2d_squash`: drop every entry marked for removal, keeping order. -/
def hull2d_squash (h : hull2d_t) : hull2d_t :=
  { h with boundaryIdx := h.boundaryIdx.filter (fun e => !e.remove) }

/-- Result of the Graham-scan loop: the final stack, the abort caused by
`LOGASSERT(stack_peek(stack, 1, &p1idx))` firing, or exhaustion of the fuel
used to drive the recursion (`grahamsLoop_fuel_sufficient` below shows the
fuel passed by `hull2d_grahams` is never exhausted, so `outOfFuel` is an
artifact of the encoding and not a behavior of the program). -/
inductive grahamsResult where
  | ok (stack : List flaggedindex_t)
  | assertFail
  | outOfFuel
deriving DecidableEq, Repr

/-- The scan loop of `hull2d_grahams`.  The scratch stack is the list
`stack` with its head as the top (`peek 0` is the head, `peek 1` the second
element).  `assertFail` models the `LOGASSERT(stack_peek(stack, 1, &p1idx))`
failure that fires when the stack has shrunk below two entries. -/
def grahamsLoop (points : List Point2f) (boundary : List flaggedindex_t) :
    Nat → Nat → List flaggedindex_t → grahamsResult
  | 0, _, _ => .outOfFuel
  | fuel + 1, i, stack =>
    if i < boundary.length then
      match stack with
      | p2idx :: p1idx :: rest =>
        let p1 := readPoint points p1idx.pointIdx
        let p2 := readPoint points p2idx.pointIdx
        let p3idx := readBoundary boundary i
        let p3 := readPoint points p3idx.pointIdx
        if hull2d_left p1 p2 p3 then
          grahamsLoop points boundary fuel (i + 1) (p3idx :: p2idx :: p1idx :: rest)
        else
          grahamsLoop points boundary fuel i (p1idx :: rest)
      | _ => .assertFail
    else .ok stack

/-- `hull2d_grahams`: clear the stack, push boundary entries 0 and 1, then
run the scan.  Returns the final stack (top first), or `assertFail` on the
assertion failure modelled in `grahamsLoop`. -/
def hull2d_grahams (h : hull2d_t) : grahamsResult :=
  grahamsLoop h.points h.boundaryIdx (2 * h.boundaryIdx.length + 1) 2
    [readBoundary h.boundaryIdx 1, readBoundary h.boundaryIdx 0]

/-- `hull2d_copyStack`: the stack is written back bottom-to-top, i.e. the
new boundary is the reverse of the top-first stack list. -/
def hull2d_copyStack (h : hull2d_t) (stack : List flaggedindex_t) : hull2d_t :=
  { h with boundaryIdx := stack.reverse }

/-- `hull2d_computeHull`: fast path when not dirty; reject fewer than 3
candidates; sort, squash, re-check the count, run the scan, copy the stack
back and clear `dirty`.  `none` propagates the `LOGASSERT` abort from
`hull2d_grahams`. -/
def hull2d_computeHull (h : hull2d_t) : Option (Bool × hull2d_t) :=
  if h.dirty = false then some (true, h)
  else if h.boundaryCount < 3 then some (false, h)
  else if (hull2d_squash (hull2d_sort h)).boundaryCount < 3 then
    some (false, hull2d_squash (hull2d_sort h))
  else
    match hull2d_grahams (hull2d_squash (hull2d_sort h)) with
    | .ok st =>
      some (true,
        { hull2d_copyStack (hull2d_squash (hull2d_sort h)) st with
          dirty := false })
    | _ => none

/-- `hull2d_segSegIntersect`: solve for the parametric offsets `s`, `t`;
parallel (near-zero denominator) segments report no intersection. -/
def hull2d_segSegIntersect (a0 a1 b0 b1 : Point2f) : Bool :=
  let denom : ℚ := a0.x * (b1.y - b0.y) + a1.x * (b0.y - b1.y) +
    b1.x * (a1.y - a0.y) + b0.x * (a0.y - a1.y)
  if |denom| < FLT_EPSILON then false
  else
    let s := (a0.x * (b1.y - b0.y) + b0.x * (a0.y - b1.y) +
      b1.x * (b0.y - a0.y)) / denom
    let t := (-(a0.x * (b0.y - a1.y) + a1.x * (a0.y - b0.y) +
      b0.x * (a1.y - a0.y))) / denom
    decide (0 ≤ s ∧ s ≤ 1 ∧ 0 ≤ t ∧ t ≤ 1)

/-- `hull2d_pointInHull`: `p` is inside iff it is left of or on every
boundary edge `i -> (i+1) mod boundaryCount` (vacuously true when the
boundary is empty, since the loop body never runs). -/
def hull2d_pointInHull (h : hull2d_t) (p : Point2f) : Bool :=
  (List.range h.boundaryCount).all fun i =>
    let j := (i + 1) % h.boundaryCount
    let p0 := readPoint h.points (readBoundary h.boundaryIdx i).pointIdx
    let p1 := readPoint h.points (readBoundary h.boundaryIdx j).pointIdx
    hull2d_leftOn p0 p1 p

/-- One body execution of the `do`-loop in `hull2d_checkIntersect`:
`none` models the early `return TRUE` on a segment intersection; otherwise
exactly one of the two raw cursors advances by one. -/
def ciStep (ha hb : hull2d_t) (a b : Nat) : Option (Nat × Nat) :=
  let a1i := (a + 1) % ha.boundaryCount
  let b1i := (b + 1) % hb.boundaryCount
  let a0 := readPoint ha.points (readBoundary ha.boundaryIdx a).pointIdx
  let a1 := readPoint ha.points (readBoundary ha.boundaryIdx a1i).pointIdx
  let b0 := readPoint hb.points (readBoundary hb.boundaryIdx b).pointIdx
  let b1 := readPoint hb.points (readBoundary hb.boundaryIdx b1i).pointIdx
  if hull2d_segSegIntersect a0 a1 b0 b1 then none
  else
    let crossMag : ℚ := (a1.x - a0.x) * (b1.y - b0.y) -
      (a1.y - a0.y) * (b1.x - b0.x)
    let aLeftB := hull2d_left b0 b1 a1
    let bLeftA := hull2d_left a0 a1 b1
    if crossMag < -FLT_EPSILON then
      if aLeftB then some (a, b + 1) else some (a + 1, b)
    else
      if bLeftA then some (a + 1, b) else some (a, b + 1)

/-- The containment fallback after the edge loop of `hull2d_checkIntersect`. -/
def ciFallback (ha hb : hull2d_t) : Bool :=
  hull2d_pointInHull hb (readPoint ha.points (readBoundary ha.boundaryIdx 0).pointIdx) ||
  hull2d_pointInHull ha (readPoint hb.points (readBoundary hb.boundaryIdx 0).pointIdx)

/-- The `do`-while loop of `hull2d_checkIntersect` with explicit fuel:
run the body; on a segment hit return `true`; otherwise continue while both
raw cursors are below their hull's boundary count, and fall back to the
containment test at exit.  `none` means the fuel ran out; the termination
theorem for claim C9 shows fuel `n + m` always suffices. -/
def ciLoop (ha hb : hull2d_t) : Nat → Nat → Nat → Option Bool
  | 0, _, _ => none
  | fuel + 1, a, b =>
    match ciStep ha hb a b with
    | none => some true
    | some (a', b') =>
      if a' < ha.boundaryCount ∧ b' < hb.boundaryCount then
        ciLoop ha hb fuel a' b'
      else some (ciFallback ha hb)

/-- `hull2d_checkIntersect`.  The guard reproduces the source assertion
`LOGASSERT(!ha->dirty && !ha->dirty)` verbatim: the first hull's flag is
tested twice and the second hull's flag is never read.  `none` models the
assertion aborting. -/
def hull2d_checkIntersect (ha hb : hull2d_t) : Option Bool :=
  if !(!ha.dirty && !ha.dirty) then none
  else ciLoop ha hb (ha.boundaryCount + hb.boundaryCount) 0 0

/-- `stack_t` from `stack.h`, with its raw `top` index (logical count minus
one), capacity, and backing memory modelled as an unbounded address space so
that out-of-range writes are observable. -/
structure stack_t (α : Type) where
  top : Int
  maxItems : Int
  data : Nat → α

/-- `stack_init`: fresh stack with `top = -1` over the given backing. -/
def stack_init (maxItems : Int) (backing : Nat → α) : stack_t α :=
  ⟨-1, maxItems, backing⟩

/-- `stack_clear`. -/
def stack_clear (s : stack_t α) : stack_t α := { s with top := -1 }

/-- `stack_push`: increments `top`, writes the item at the new `top` slot,
and only then compares against the capacity — exactly the write-then-check
order of the source. -/
def stack_push (s : stack_t α) (item : α) : stack_t α × Bool :=
  let top' := s.top + 1
  ({ s with top := top', data := Function.update s.data top'.toNat item },
    decide (top' < s.maxItems))

/-- `stack_pop`: decrements `top` and reports failure when the stack is
empty after the decrement. -/
def stack_pop (s : stack_t α) : stack_t α × Bool :=
  let s' := { s with top := s.top - 1 }
  (s', decide (¬ s'.top < 0))

/-- `stack_peek`: copy of the item `idx` levels below the top, `none` when
out of range (the out parameter is untouched). -/
def stack_peek (s : stack_t α) (idx : Int) : Option α :=
  if s.top ≥ idx then some (s.data (s.top - idx).toNat) else none

/-- `stack_count`. -/
def stack_count (s : stack_t α) : Int := s.top + 1

/-- The hull invariant relied on below: either the hull is completely empty
(the state `hull2d_init` creates, where reads go through the sentinel), or
`lowestIdx` points into the live boundary prefix and that entry references a
live point.  Every state reachable through the API satisfies it. -/
def hull2d_wf (h : hull2d_t) : Prop :=
  (h.points = [] ∧ h.boundaryIdx = [] ∧ h.lowestIdx = 0) ∨
  (h.lowestIdx < h.boundaryIdx.length ∧
    (readBoundary h.boundaryIdx h.lowestIdx).pointIdx < h.points.length)

/-- A triangle: lowest point is `(2,0)` (y-tie with `(0,0)`, larger x). -/
def triHull : hull2d_t :=
  hull2d_addPoints hull2d_init [⟨0, 0⟩, ⟨2, 0⟩, ⟨0, 2⟩]

/-- The triangle hull after a successful `hull2d_computeHull`. -/
def triComputed : hull2d_t :=
  ((hull2d_computeHull triHull).getD (false, triHull)).2

/-- A computed square hull, disjoint from the triangle. -/
def sqHull : hull2d_t :=
  hull2d_addPoints hull2d_init [⟨10, 10⟩, ⟨12, 10⟩, ⟨12, 12⟩, ⟨10, 12⟩]

/-- The square hull after a successful `hull2d_computeHull`. -/
def sqComputed : hull2d_t :=
  ((hull2d_computeHull sqHull).getD (false, sqHull)).2

/-- Three exactly collinear points, the lowest one added last (so that the
pivot swap inside `hull2d_sort` reorders the boundary). -/
def col3 : hull2d_t :=
  hull2d_addPoints hull2d_init [⟨2, 2⟩, ⟨1, 1⟩, ⟨0, 0⟩]

/-- The state `hull2d_computeHull` leaves behind when it fails on `col3`. -/
def col3Failed : hull2d_t :=
  ((hull2d_computeHull col3).getD (true, col3)).2

/-- Four points, not all collinear, on which the Graham scan pops the stack
below two entries: pivot `a = (0,0)`, then `s = (2, 2^-9 + 2^-23)`,
`f = (1, 2^-10)`, `u = (4, 2^-8 + 3*2^-24)`.  All coordinates and all cross
products are exact in `float`/`double`.  The cross products around `a` are
`cross(a,f,u) = (3/2)*FLT_EPSILON` (a genuinely non-collinear triple),
`cross(a,s,f) = -FLT_EPSILON` and `cross(a,s,u) = -FLT_EPSILON/2` (both in
the comparator's dead zone). -/
def c1Bad : hull2d_t :=
  hull2d_addPoints hull2d_init
    [⟨0, 0⟩, ⟨2, 1/512 + 1/8388608⟩, ⟨1, 1/1024⟩, ⟨4, 1/256 + 3/16777216⟩]

/-- A full stack: capacity 2, `top = 1`, so `count = maxItems = 2`. -/
def fullStack : stack_t Nat := ⟨1, 2, fun _ => 0⟩

/-- A stack holding exactly one item (`top = 0`). -/
def oneItemStack : stack_t Nat := ⟨0, 4, fun _ => 0⟩

/-! ## Helper lemmas -/

theorem hull2d_t_ext (h1 h2 : hull2d_t) (hp : h1.points = h2.points)
    (hb : h1.boundaryIdx = h2.boundaryIdx) (hl : h1.lowestIdx = h2.lowestIdx)
    (hd : h1.dirty = h2.dirty) : h1 = h2 := by
  cases h1; cases h2; simp_all

theorem readPoint_append_left (l r : List Point2f) (i : Nat)
    (hi : i < l.length) : readPoint (l ++ r) i = readPoint l i := by
  unfold readPoint
  exact List.getD_append l r _ i hi

theorem readPoint_at_append (l r : List Point2f) (p : Point2f) :
    readPoint (l ++ p :: r) l.length = p := by
  unfold readPoint
  rw [List.getD_append_right l (p :: r) _ l.length (le_refl _)]
  simp

theorem readBoundary_append_left (l r : List flaggedindex_t) (i : Nat)
    (hi : i < l.length) : readBoundary (l ++ r) i = readBoundary l i := by
  unfold readBoundary
  exact List.getD_append l r _ i hi

theorem readBoundary_at_append (l : List flaggedindex_t) (e : flaggedindex_t) :
    readBoundary (l ++ [e]) l.length = e := by
  unfold readBoundary
  rw [List.getD_append_right l [e] _ l.length (le_refl _)]
  simp

/-! ## Claim C10 -/

/-- Claim C10: for every hull whose `boundaryCount` is 0 (e.g. freshly
initialized or cleared), `hull2d_pointInHull` returns true for every query
point, because the edge loop body never runs. -/
theorem pointInHull_empty_boundary_true (h : hull2d_t) (p : Point2f)
    (h0 : h.boundaryCount = 0) : hull2d_pointInHull h p = true := by
  unfold hull2d_pointInHull
  rw [h0]
  rfl

/-- Witness for C10 at the freshly initialized hull and the point `(5,5)`. -/
theorem pointInHull_empty_boundary_true_witness :
    hull2d_init.boundaryCount = 0 ∧
    hull2d_pointInHull hull2d_init ⟨5, 5⟩ = true :=
  ⟨by decide, pointInHull_empty_boundary_true hull2d_init ⟨5, 5⟩ (by decide)⟩

/-! ## Claim C3 -/

/-- Claim C3 (code bug evaluation): pushing onto an already-full stack
(capacity 2, count 2) does return failure, but only after writing the item
into slot 2 — one slot past the allocated region `[0, maxItems)` — and it
leaves `count` incremented to 3 rather than unchanged.  Capacity is checked
only after the write, contradicting the claimed check-then-write
discipline. -/
theorem stack_push_full_writes_past_capacity :
    stack_count fullStack = fullStack.maxItems ∧
    (stack_push fullStack 7).2 = false ∧
    (stack_push fullStack 7).1.data 2 = 7 ∧
    stack_count (stack_push fullStack 7).1 = 3 := by
  refine ⟨rfl, rfl, ?_, rfl⟩
  simp [stack_push, fullStack, Function.update]

/-! ## Claim C6 -/

/-- Claim C6 (code bug evaluation): pivot `a = (0,0)`, candidates
`b = (1,1)` (point index 1) and `c = (-1,-1)` (point index 2) are distinct,
collinear with the pivot, and their per-axis distances from `a` tie exactly.
The comparator flags the candidate with the LARGER point index (index 2) for
removal, not the smaller one as claimed (and as the source comment "remove
the earlier of the two" describes); the ordering result is false (`b` after
`c`) regardless of which entry got flagged. -/
theorem compareAndFlag_tie_flags_larger_index :
    hull2d_compareAndFlag [⟨0, 0⟩, ⟨1, 1⟩, ⟨-1, -1⟩] ⟨0, 0⟩
      ⟨1, false⟩ ⟨2, false⟩ = (false, ⟨1, false⟩, ⟨2, true⟩) := by
  decide

/-! ## Claim C7 -/

/-- Claim C7 counterexample: a stack holding exactly one item is non-empty
(`count = 1 >= 1`), yet `stack_pop` reports failure, because the source
checks emptiness after the decrement rather than before the call. -/
theorem stack_pop_nonempty_reports_failure :
    (1 : Int) ≤ stack_count oneItemStack ∧
    (stack_pop oneItemStack).2 = false :=
  ⟨by decide, by decide⟩

/-- Claim C7 amended: `stack_pop` always decrements the `top` index, and it
reports failure exactly when the stack is empty AFTER the pop, i.e. when the
count before the call was at most 1 (so popping the last item succeeds in
removing it but still reports failure). -/
theorem stack_pop_failure_iff_count_le_one {α : Type} (s : stack_t α) :
    ((stack_pop s).2 = false ↔ stack_count s ≤ 1) ∧
    (stack_pop s).1.top = s.top - 1 := by
  refine ⟨?_, rfl⟩
  simp only [stack_pop, stack_count, decide_eq_false_iff_not, not_not]
  omega

/-- The fuel `hull2d_grahams` passes to `grahamsLoop` is never exhausted:
every loop iteration spends one unit of fuel and strictly decreases the
measure `2 * (remaining candidates) + (stack size)`. -/
theorem grahamsLoop_fuel_sufficient (points : List Point2f)
    (boundary : List flaggedindex_t) :
    ∀ fuel i stack, 2 * (boundary.length - i) + stack.length < fuel →
      grahamsLoop points boundary fuel i stack ≠ grahamsResult.outOfFuel := by
  intro fuel
  induction fuel with
  | zero => intro i stack hlt; omega
  | succ n ih =>
    intro i stack hlt
    simp only [grahamsLoop]
    split
    · split
      · split
        · apply ih
          simp only [List.length_cons] at hlt ⊢
          omega
        · apply ih
          simp only [List.length_cons] at hlt ⊢
          omega
      · simp
    · simp

/-- Fuel exhaustion never occurs for `hull2d_grahams` itself. -/
theorem hull2d_grahams_no_fuel_exhaustion (h : hull2d_t) :
    hull2d_grahams h ≠ grahamsResult.outOfFuel := by
  unfold hull2d_grahams
  by_cases hlen : 2 ≤ h.boundaryIdx.length
  · apply grahamsLoop_fuel_sufficient
    simp only [List.length_cons, List.length_nil]
    omega
  · simp only [grahamsLoop]
    rw [if_neg (by omega)]
    simp

/-! ## Claim C1 -/

/-- Claim C1 (code bug evaluation): the point set of `c1Bad` contains the
non-collinear triple `a = (0,0)`, `f = (1, 2^-10)`, `u = (4, 2^-8+3*2^-24)`
(its area sign is 1, so the set is not all on one line, even under the
epsilon test), yet `hull2d_computeHull` does not return true: the sort
leaves the epsilon-collinear pair `s`,`u` uncompared (their order is fixed
through the flagged middle point `f`), the Graham scan then pops the stack
down to a single entry, and `LOGASSERT(stack_peek(stack, 1, &p1idx))` in
`hull2d_grahams` aborts the program (modelled by `assertFail` / `none`).
This contradicts the function's own documentation, which says it only fails
when fewer than 3 points were added or all points fall on the same line. -/
theorem computeHull_crashes_on_nearly_collinear :
    hull2d_areaSign ⟨0, 0⟩ ⟨1, 1/1024⟩ ⟨4, 1/256 + 3/16777216⟩ = 1 ∧
    hull2d_grahams (hull2d_squash (hull2d_sort c1Bad)) =
      grahamsResult.assertFail ∧
    hull2d_computeHull c1Bad = none := by decide

/-! ## Claim C2 -/

/-- Claim C2 counterexample: on three exactly collinear points (the lowest
added last) `hull2d_computeHull` returns false and leaves `dirty` set, but
the prior boundary sequence is NOT unchanged: the pivot swap inside
`hull2d_sort` reorders it and `hull2d_squash` drops a flagged entry, so the
boundary shrinks from the 3 candidates `[0, 1, 2]` to 2 entries. -/
theorem computeHull_failure_mutates_boundary :
    hull2d_computeHull col3 = some (false, col3Failed) ∧
    col3Failed.dirty = col3.dirty ∧
    col3Failed.boundaryIdx ≠ col3.boundaryIdx ∧
    col3Failed.boundaryCount = 2 := by decide

/-- Claim C2 amended: whenever `hull2d_computeHull` returns false it leaves
the dirty flag and the points array unchanged (so the caller can add more
points and retry), and in the fewer-than-3-candidates case the entire hull
state is untouched; but in the all-collinear case the boundary list may be
reordered and compacted before the failure is reported. -/
theorem computeHull_false_dirty_points_preserved (h h' : hull2d_t)
    (hres : hull2d_computeHull h = some (false, h')) :
    h'.dirty = h.dirty ∧ h'.points = h.points ∧
    (h.boundaryCount < 3 → h' = h) := by
  unfold hull2d_computeHull at hres
  by_cases hd : h.dirty = false
  · rw [if_pos hd] at hres
    simp at hres
  · rw [if_neg hd] at hres
    by_cases hc : h.boundaryCount < 3
    · rw [if_pos hc] at hres
      simp only [Option.some.injEq, Prod.mk.injEq] at hres
      obtain ⟨-, rfl⟩ := hres
      exact ⟨rfl, rfl, fun _ => rfl⟩
    · rw [if_neg hc] at hres
      by_cases hc2 : (hull2d_squash (hull2d_sort h)).boundaryCount < 3
      · rw [if_pos hc2] at hres
        simp only [Option.some.injEq, Prod.mk.injEq] at hres
        obtain ⟨-, rfl⟩ := hres
        exact ⟨rfl, rfl, fun hlt => absurd hlt hc⟩
      · rw [if_neg hc2] at hres
        cases hg : hull2d_grahams (hull2d_squash (hull2d_sort h)) with
        | ok st => rw [hg] at hres; simp at hres
        | assertFail => rw [hg] at hres; simp at hres
        | outOfFuel => rw [hg] at hres; simp at hres

/-- Witness for the amended C2 at the collinear input `col3`. -/
theorem computeHull_false_dirty_points_preserved_witness :
    hull2d_computeHull col3 = some (false, col3Failed) ∧
    (col3Failed.dirty = col3.dirty ∧ col3Failed.points = col3.points ∧
      (col3.boundaryCount < 3 → col3Failed = col3)) :=
  ⟨by decide,
    computeHull_false_dirty_points_preserved col3 col3Failed (by decide)⟩

/-! ## Claim C5 -/

/-- Claim C5: if `hull2d_computeHull` just returned true with state `h'`,
then calling it again on `h'` (no intervening append) returns true and
leaves the state unchanged, via the non-dirty fast path: every true-return
leaves `dirty = false`, and `hull2d_computeHull` on a non-dirty hull is the
identity returning true. -/
theorem computeHull_idempotent (h h' : hull2d_t)
    (hres : hull2d_computeHull h = some (true, h')) :
    hull2d_computeHull h' = some (true, h') := by
  have hd : h'.dirty = false := by
    unfold hull2d_computeHull at hres
    by_cases hdd : h.dirty = false
    · rw [if_pos hdd] at hres
      simp only [Option.some.injEq, Prod.mk.injEq] at hres
      obtain ⟨-, rfl⟩ := hres
      exact hdd
    · rw [if_neg hdd] at hres
      by_cases hc : h.boundaryCount < 3
      · rw [if_pos hc] at hres
        simp at hres
      · rw [if_neg hc] at hres
        by_cases hc2 : (hull2d_squash (hull2d_sort h)).boundaryCount < 3
        · rw [if_pos hc2] at hres
          simp at hres
        · rw [if_neg hc2] at hres
          cases hg : hull2d_grahams (hull2d_squash (hull2d_sort h)) with
          | ok st =>
            rw [hg] at hres
            simp only [Option.some.injEq, Prod.mk.injEq] at hres
            obtain ⟨-, rfl⟩ := hres
            rfl
          | assertFail => rw [hg] at hres; simp at hres
          | outOfFuel => rw [hg] at hres; simp at hres
  unfold hull2d_computeHull
  rw [if_pos hd]

/-- Witness for C5 at the triangle hull. -/
theorem computeHull_idempotent_witness :
    hull2d_computeHull triHull = some (true, triComputed) ∧
    hull2d_computeHull triComputed = some (true, triComputed) :=
  ⟨by decide, computeHull_idempotent triHull triComputed (by decide)⟩

/-! ## Claim C8 -/

/-- Claim C8 (code bug evaluation): the guard in `hull2d_checkIntersect`
reproduces the source assertion `LOGASSERT(!ha->dirty && !ha->dirty)`, which
tests the FIRST hull's dirty flag twice and never reads the second hull's.
With a clean first hull and a dirty second hull (`col3.dirty = true`) the
call silently computes a result (`some true` here) instead of failing
loudly, while the symmetric call with the dirty hull first does abort
(`none`).  A dirty second hull is NOT detected the way a dirty first hull
is. -/
theorem checkIntersect_misses_dirty_second_hull :
    triComputed.dirty = false ∧ col3.dirty = true ∧
    hull2d_checkIntersect col3 triComputed = none ∧
    hull2d_checkIntersect triComputed col3 = some true := by decide

/-! ## Claim C9 -/

/-- Every non-returning body execution of the intersection loop advances
exactly one of the two raw cursors by one. -/
theorem ciStep_advance (ha hb : hull2d_t) (a b a' b' : Nat)
    (hs : ciStep ha hb a b = some (a', b')) :
    (a' = a + 1 ∧ b' = b) ∨ (a' = a ∧ b' = b + 1) := by
  simp only [ciStep] at hs
  split at hs
  · exact absurd hs (by simp)
  · split at hs
    · split at hs
      · simp only [Option.some.injEq, Prod.mk.injEq] at hs
        right
        omega
      · simp only [Option.some.injEq, Prod.mk.injEq] at hs
        left
        omega
    · split at hs
      · simp only [Option.some.injEq, Prod.mk.injEq] at hs
        left
        omega
      · simp only [Option.some.injEq, Prod.mk.injEq] at hs
        right
        omega

/-- One-step unfolding of `ciLoop` at positive fuel. -/
theorem ciLoop_succ (ha hb : hull2d_t) (n a b : Nat) :
    ciLoop ha hb (n + 1) a b =
      match ciStep ha hb a b with
      | none => some true
      | some (a', b') =>
        if a' < ha.boundaryCount ∧ b' < hb.boundaryCount then
          ciLoop ha hb n a' b'
        else some (ciFallback ha hb) := rfl

/-- With both cursors strictly inside their boundaries and fuel at least the
total remaining cursor headroom, the intersection loop completes. -/
theorem ciLoop_enough_fuel (ha hb : hull2d_t) :
    ∀ fuel a b, a < ha.boundaryCount → b < hb.boundaryCount →
      ha.boundaryCount - a + (hb.boundaryCount - b) ≤ fuel →
      ciLoop ha hb fuel a b ≠ none := by
  intro fuel
  induction fuel with
  | zero => intro a b ha1 hb1 hle; omega
  | succ n ih =>
    intro a b ha1 hb1 hle
    rw [ciLoop_succ]
    cases hs : ciStep ha hb a b with
    | none => simp
    | some ab =>
      obtain ⟨a', b'⟩ := ab
      dsimp only
      by_cases hcont : a' < ha.boundaryCount ∧ b' < hb.boundaryCount
      · rw [if_pos hcont]
        apply ih a' b' hcont.1 hcont.2
        rcases ciStep_advance ha hb a b a' b' hs with ⟨rfl, rfl⟩ | ⟨rfl, rfl⟩
        · omega
        · omega
      · rw [if_neg hcont]
        simp

/-- Claim C9: for computed hulls with boundary sizes `n >= 1` and `m >= 1`,
every iteration of the edge-advancing loop in `hull2d_checkIntersect` either
returns (on a segment intersection) or increments exactly one of the two raw
cursors by one, and the loop — driven here by fuel `n + m`, the claimed
iteration bound — always completes: it never exhausts `n + m` iterations
without reaching the exit condition (a raw cursor at or beyond its hull's
boundary count) or returning. -/
theorem checkIntersect_loop_advance_terminates (ha hb : hull2d_t)
    (hn : 1 ≤ ha.boundaryCount) (hm : 1 ≤ hb.boundaryCount) :
    (∀ a b a' b', ciStep ha hb a b = some (a', b') →
      (a' = a + 1 ∧ b' = b) ∨ (a' = a ∧ b' = b + 1)) ∧
    ciLoop ha hb (ha.boundaryCount + hb.boundaryCount) 0 0 ≠ none := by
  refine ⟨fun a b a' b' hs => ciStep_advance ha hb a b a' b' hs, ?_⟩
  exact ciLoop_enough_fuel ha hb _ 0 0 (by omega) (by omega) (by omega)

set_option maxHeartbeats 2000000 in
/-- Witness for C9 at the computed triangle and square hulls. -/
theorem checkIntersect_loop_advance_terminates_witness :
    1 ≤ triComputed.boundaryCount ∧ 1 ≤ sqComputed.boundaryCount ∧
    ciLoop triComputed sqComputed
      (triComputed.boundaryCount + sqComputed.boundaryCount) 0 0 ≠ none :=
  ⟨by decide, by decide,
    (checkIntersect_loop_advance_terminates triComputed sqComputed
      (by decide) (by decide)).2⟩

/-! ## Claim C4 -/

theorem addPoint_points (h : hull2d_t) (p : Point2f) :
    (hull2d_addPoint h p).points = h.points ++ [p] := rfl

theorem addPoint_boundaryIdx (h : hull2d_t) (p : Point2f) :
    (hull2d_addPoint h p).boundaryIdx =
      h.boundaryIdx ++ [⟨h.points.length, false⟩] := rfl

theorem addPoint_lowestIdx (h : hull2d_t) (p : Point2f) :
    (hull2d_addPoint h p).lowestIdx =
      if lowerThan p (readPoint (h.points ++ [p])
          (readBoundary (h.boundaryIdx ++ [⟨h.points.length, false⟩])
            h.lowestIdx).pointIdx)
      then h.boundaryIdx.length else h.lowestIdx := rfl

theorem foldl_addPoint_points (ps : List Point2f) (h : hull2d_t) :
    (ps.foldl hull2d_addPoint h).points = h.points ++ ps := by
  induction ps generalizing h with
  | nil => simp
  | cons p rest ih =>
    rw [List.foldl_cons, ih, addPoint_points]
    simp

theorem foldl_addPoint_dirty (p : Point2f) (ps : List Point2f) (h : hull2d_t) :
    ((p :: ps).foldl hull2d_addPoint h).dirty = true := by
  induction ps generalizing p h with
  | nil => rfl
  | cons q rest ih => exact ih q (hull2d_addPoint h p)

/-- `hull2d_addPoint` preserves the hull invariant. -/
theorem wf_addPoint (h : hull2d_t) (p : Point2f) (hwf : hull2d_wf h) :
    hull2d_wf (hull2d_addPoint h p) := by
  right
  rw [addPoint_boundaryIdx, addPoint_lowestIdx, addPoint_points]
  by_cases hc : lowerThan p (readPoint (h.points ++ [p])
      (readBoundary (h.boundaryIdx ++ [⟨h.points.length, false⟩])
        h.lowestIdx).pointIdx) = true
  · rw [if_pos hc]
    refine ⟨by simp, ?_⟩
    rw [readBoundary_at_append]
    simp
  · rw [if_neg hc]
    rcases hwf with ⟨hpts, hbd, hl⟩ | ⟨hlt, hpi⟩
    · rw [hpts, hbd, hl]
      exact ⟨by simp, by simp [readBoundary]⟩
    · refine ⟨by simp; omega, ?_⟩
      rw [readBoundary_append_left _ _ _ hlt]
      simp
      omega

/-- Under the invariant, the boundary entry the batch code reads before
appending agrees with the one the one-point code reads after appending. -/
theorem readBoundary_snoc_lowest (h : hull2d_t) (hwf : hull2d_wf h) :
    readBoundary (h.boundaryIdx ++ [⟨h.points.length, false⟩]) h.lowestIdx =
      readBoundary h.boundaryIdx h.lowestIdx := by
  rcases hwf with ⟨hpts, hbd, hl⟩ | ⟨hlt, -⟩
  · rw [hpts, hbd, hl]
    rfl
  · exact readBoundary_append_left _ _ _ hlt

/-- Under the invariant, the pivot comparison point read by
`hull2d_addPoints` over the fully extended points array agrees with the one
`hull2d_addPoint` reads over the array extended by the head alone. -/
theorem readPoint_pivot_agree (h : hull2d_t) (p : Point2f)
    (rest : List Point2f) (hwf : hull2d_wf h) :
    readPoint (h.points ++ [p])
        (readBoundary (h.boundaryIdx ++ [⟨h.points.length, false⟩])
          h.lowestIdx).pointIdx =
      readPoint (h.points ++ p :: rest)
        (readBoundary h.boundaryIdx h.lowestIdx).pointIdx := by
  rw [readBoundary_snoc_lowest h hwf]
  rcases hwf with ⟨hpts, hbd, hl⟩ | ⟨-, hpi⟩
  · rw [hpts, hbd, hl]
    rfl
  · rw [readPoint_append_left _ _ _ hpi, readPoint_append_left _ _ _ hpi]

/-- The batch loop of `hull2d_addPoints`, started from a well-formed hull
state, computes exactly the boundary list and `lowestIdx` that folding
`hull2d_addPoint` over the batch computes. -/
theorem addPointsLoop_eq_foldl (ps : List Point2f) :
    ∀ h : hull2d_t, hull2d_wf h →
      addPointsLoop (h.points ++ ps) h.boundaryIdx h.lowestIdx
          (readPoint (h.points ++ ps)
            (readBoundary h.boundaryIdx h.lowestIdx).pointIdx)
          h.points.length ps =
        ((ps.foldl hull2d_addPoint h).boundaryIdx,
          (ps.foldl hull2d_addPoint h).lowestIdx) := by
  induction ps with
  | nil => intro h hwf; rfl
  | cons p rest ih =>
    intro h hwf
    rw [List.foldl_cons]
    rw [← ih (hull2d_addPoint h p) (wf_addPoint h p hwf)]
    rw [addPoint_points, addPoint_boundaryIdx, addPoint_lowestIdx]
    simp only [List.append_assoc, List.singleton_append, List.length_append,
      List.length_singleton]
    rw [readPoint_pivot_agree h p rest hwf]
    simp only [addPointsLoop]
    rw [readPoint_at_append]
    by_cases hc : lowerThan p (readPoint (h.points ++ p :: rest)
        (readBoundary h.boundaryIdx h.lowestIdx).pointIdx) = true
    · rw [if_pos hc, if_pos hc]
      rw [readBoundary_at_append]
      rw [readPoint_at_append]
    · rw [if_neg hc, if_neg hc]
      rw [readBoundary_snoc_lowest h hwf]

/-- Claim C4 counterexample: on a non-dirty hull (the computed triangle) and
the empty list, `hull2d_addPoints` is NOT the fold of `hull2d_addPoint`:
the batch call unconditionally sets `dirty = TRUE` even for an empty batch,
while zero `hull2d_addPoint` calls leave the state (and `dirty = FALSE`)
unchanged. -/
theorem addPoints_nil_differs_from_foldl :
    hull2d_addPoints triComputed [] ≠
      List.foldl hull2d_addPoint triComputed [] ∧
    (hull2d_addPoints triComputed []).dirty = true ∧
    (List.foldl hull2d_addPoint triComputed []).dirty = false := by decide

/-- Claim C4 amended: for every well-formed hull state (every state the API
can reach) and every NON-EMPTY batch, `hull2d_addPoints` produces exactly
the state of folding `hull2d_addPoint` over the batch in order, including
identical `lowestIdx` resolution on ties; for the empty batch the two differ
precisely in `hull2d_addPoints` setting the dirty flag. -/
theorem addPoints_eq_foldl_addPoint (h : hull2d_t) (ps : List Point2f)
    (hwf : hull2d_wf h) (hne : ps ≠ []) :
    hull2d_addPoints h ps = ps.foldl hull2d_addPoint h := by
  have hloop := addPointsLoop_eq_foldl ps h hwf
  apply hull2d_t_ext
  · show h.points ++ ps = (ps.foldl hull2d_addPoint h).points
    rw [foldl_addPoint_points]
  · show (addPointsLoop (h.points ++ ps) h.boundaryIdx h.lowestIdx
        (readPoint (h.points ++ ps)
          (readBoundary h.boundaryIdx h.lowestIdx).pointIdx)
        h.points.length ps).1 =
      (ps.foldl hull2d_addPoint h).boundaryIdx
    rw [hloop]
  · show (addPointsLoop (h.points ++ ps) h.boundaryIdx h.lowestIdx
        (readPoint (h.points ++ ps)
          (readBoundary h.boundaryIdx h.lowestIdx).pointIdx)
        h.points.length ps).2 =
      (ps.foldl hull2d_addPoint h).lowestIdx
    rw [hloop]
  · show true = (ps.foldl hull2d_addPoint h).dirty
    obtain ⟨p, rest, rfl⟩ := List.exists_cons_of_ne_nil hne
    exact (foldl_addPoint_dirty p rest h).symm

/-- Witness for the amended C4: the freshly initialized hull is well-formed
and a two-point batch is processed identically by both paths. -/
theorem addPoints_eq_foldl_addPoint_witness :
    hull2d_wf hull2d_init ∧ ([⟨0, 0⟩, ⟨2, 0⟩] : List Point2f) ≠ [] ∧
    hull2d_addPoints hull2d_init [⟨0, 0⟩, ⟨2, 0⟩] =
      List.foldl hull2d_addPoint hull2d_init [⟨0, 0⟩, ⟨2, 0⟩] :=
  ⟨Or.inl ⟨rfl, rfl, rfl⟩, by simp,
    addPoints_eq_foldl_addPoint hull2d_init [⟨0, 0⟩, ⟨2, 0⟩]
      (Or.inl ⟨rfl, rfl, rfl⟩) (by simp)⟩
